import Mathlib

/-!
Verification of the simple-json recursive-descent parser (`src/lib.rs`).

The Rust parser is embedded shallowly: the `JsonBuilder` struct becomes a
state record threaded explicitly through every function, the character
iterator becomes the list of characters not yet pulled, and the `loop`
constructs become fueled recursion.  Each loop pulls at least one character
per iteration, so `iter.length + 1` units of fuel always run a loop of the
source to completion; the mutually recursive `parse`/`parse_list`/
`parse_object` nest is given a fuel budget linear in the input length.
-/

set_option linter.unusedVariables false
set_option linter.unnecessarySeqFocus false

/-- Alias for the builtin string type, for positions where the bare name
`String` would be captured by the `Json.String` constructor. -/
abbrev Str := String

namespace SimpleJson

/-- The JSON value tree produced by the parser (`enum Json` in the source).
`Object` holds its key-value pairs as an insertion-ordered association list
with unique keys, modelling the Rust `HashMap<String, Json>` together with
the overwriting semantics of `HashMap::insert`. -/
inductive Json where
  | Object : List (String × Json) → Json
  | Array : List Json → Json
  | String : String → Json
  | Number : Nat → Json
  | Boolean : Bool → Json
  | Null : Json

/-- `enum JsonError` in the source. -/
inductive JsonError where
  | ParseError : String → JsonError
  | NotImplemented : JsonError
deriving DecidableEq

/-- Internal parser state (`struct JsonBuilder` in the source).  The Rust
character iterator is modelled as the list of characters not yet pulled. -/
structure JsonBuilder where
  iter : List Char
  token : Option Char
  column : Nat
  line : Nat
  eof_allowed : Bool

/-- `JsonBuilder::new`. -/
def JsonBuilder.new (iter : List Char) : JsonBuilder :=
  { iter := iter, token := none, column := 0, line := 0, eof_allowed := true }

/-- `JsonBuilder::next`.  The Rust method stores the pulled character in
`self.token` and returns it; the returned value always equals the updated
`token` field, so the embedding returns the updated state only and callers
read `.token`.  The source matches `Some(n)` for a newline and `_`
otherwise; the `_` arm also covers `None`, so `column` is incremented even
when the iterator is exhausted. -/
def JsonBuilder.next (s : JsonBuilder) : JsonBuilder :=
  match s.iter with
  | [] => { s with token := none, column := s.column + 1 }
  | c :: rest =>
    if c = '\n' then
      { s with iter := rest, token := some c, line := s.line + 1, column := 0 }
    else
      { s with iter := rest, token := some c, column := s.column + 1 }

/-- Rust `{:?}` rendering of a `char` as it appears in the error messages:
wrapped in single quotes, with `\n`, the backslash and the single quote
rendered with a backslash escape. -/
def charDebug (c : Char) : String :=
  if c = '\n' then "\x27\\n\x27"
  else if c = '\\' then "\x27\\\\\x27"
  else if c = '\x27' then "\x27\\\x27\x27"
  else "\x27" ++ String.mk [c] ++ "\x27"

/-- Rust `{:?}` rendering of the `Option<char>` token field. -/
def tokenDebug : Option Char → String
  | some c => "Some(" ++ charDebug c ++ ")"
  | none => "None"

/-- The message built by the unexpected-character arms of `parse` and
`parse_number` (note the trailing space of the source format string). -/
def unexpected_char_msg (s : JsonBuilder) : String :=
  "unexpected character (" ++ tokenDebug s.token ++ ") at line: " ++ Nat.repr s.line ++
    ", column: " ++ Nat.repr s.column ++ " "

/-- The message built by the unexpected-character arms of `parse_list` and
`parse_object`. -/
def unexpected_char_msg2 (s : JsonBuilder) : String :=
  "Unexpected character (" ++ tokenDebug s.token ++ ") at line: " ++ Nat.repr s.line ++
    ", column: " ++ Nat.repr s.column ++ "."

/-- The message built by `parse_object_key` when the character after a key
is not a colon. -/
def expected_colon_msg (s : JsonBuilder) : String :=
  "Expected to find \x27:\x27, but found: " ++ tokenDebug s.token ++ " at line: " ++
    Nat.repr s.line ++ ", column: " ++ Nat.repr s.column ++ "."

/-- Largest value of the platform `usize` (the spec fixes numbers to "the
platform's native unsigned integer range"; a 64-bit platform is assumed). -/
def USIZE_MAX : Nat := 2 ^ 64 - 1

/-- Value of a decimal digit string. -/
def digitsToNat (l : List Char) : Nat :=
  l.foldl (fun acc c => 10 * acc + (c.toNat - 48)) 0

/-- Model of Rust `str::parse::<usize>` on the strings the number parser
can produce: it succeeds exactly on nonempty all-digit strings whose value
fits in `usize`. -/
def parseUsize (l : List Char) : Option Nat :=
  if l ≠ [] ∧ (∀ c ∈ l, '0' ≤ c ∧ c ≤ '9') ∧ digitsToNat l ≤ USIZE_MAX then
    some (digitsToNat l)
  else none

/-- The final `match num.parse::<usize>()` of `parse_number`. -/
def numFinish (num : List Char) : Except JsonError Json :=
  match parseUsize num with
  | some n => .ok (.Number n)
  | none => .error (.ParseError ("Couldn\x27t parse number: " ++ String.mk num))

/-- The `while` loop of `JsonBuilder::parse_whitespace`, fueled. -/
def parse_whitespace : Nat → JsonBuilder → JsonBuilder
  | 0, s => s
  | fuel + 1, s =>
    if s.token = some ' ' ∨ s.token = some '\n' then
      parse_whitespace fuel s.next
    else s

/-- `JsonBuilder::parse_whitespace`: every loop iteration pulls one
character, so `iter.length + 1` units of fuel run it to completion. -/
def parse_whitespaceT (s : JsonBuilder) : JsonBuilder :=
  parse_whitespace (s.iter.length + 1) s

/-- `JsonBuilder::parse_ident`: the source folds
`ident.chars().all(|c| Some(c) == self.next())`, short-circuiting at the
first mismatching (or missing) character. -/
def parse_ident : List Char → Json → JsonBuilder → (Except JsonError Json) × JsonBuilder
  | [], res, s => (.ok res, s)
  | c :: rest, res, s =>
    let s := s.next
    if s.token = some c then parse_ident rest res s
    else (.error (.ParseError "woot"), s)

/-- The `loop` of `JsonBuilder::parse_string_raw`, fueled; `acc` is the
accumulated string and `escape` the escape-mode flag. -/
def parse_string_raw_loop :
    Nat → List Char → Bool → JsonBuilder → (Except JsonError (List Char)) × JsonBuilder
  | 0, _, _, s => (.error (.ParseError "out of fuel"), s)
  | fuel + 1, acc, escape, s =>
    let s := s.next
    if escape then
      match s.token with
      | some '"' => parse_string_raw_loop fuel (acc ++ ['"']) false s
      | some '\\' => parse_string_raw_loop fuel (acc ++ ['\\']) false s
      | some _ => (.error (.ParseError "escape error."), s)
      | none => (.error (.ParseError "Unexpected eof."), s)
    else
      match s.token with
      | some '"' => (.ok acc, s)
      | some '\\' => parse_string_raw_loop fuel acc true s
      | some c => parse_string_raw_loop fuel (acc ++ [c]) false s
      | none => (.error (.ParseError "Unexpected eof."), s)

/-- `JsonBuilder::parse_string_raw` (fuel `iter.length + 1` suffices since
every iteration pulls one character). -/
def parse_string_raw (s : JsonBuilder) : (Except JsonError (List Char)) × JsonBuilder :=
  parse_string_raw_loop (s.iter.length + 1) [] false s

/-- `JsonBuilder::parse_string`. -/
def parse_string (s : JsonBuilder) : (Except JsonError Json) × JsonBuilder :=
  match parse_string_raw s with
  | (.ok str, s) => (.ok (.String (String.mk str)), s)
  | (.error e, s) => (.error e, s)

/-- The string-body grammar exactly as the spec words it, used to compare the
source string parser against the specification: the two escapes
backslash-quote and backslash-backslash are un-escaped, every other
character is passed through verbatim, a backslash followed by any other
character is an escape error, and end-of-input in or out of escape mode is
an eof error.  Returns the accumulated body together with the input left
after the closing quote. -/
def stringSpec : List Char → List Char → Except JsonError (List Char × List Char)
  | [], _ => .error (.ParseError "Unexpected eof.")
  | c :: rest, acc =>
    if c = '"' then .ok (acc, rest)
    else if c = '\\' then
      match rest with
      | [] => .error (.ParseError "Unexpected eof.")
      | e :: rest2 =>
        if e = '"' then stringSpec rest2 (acc ++ ['"'])
        else if e = '\\' then stringSpec rest2 (acc ++ ['\\'])
        else .error (.ParseError "escape error.")
    else stringSpec rest (acc ++ [c])

/-- The `loop` of `JsonBuilder::parse_number`, fueled; `num` is the digit
accumulator. -/
def parse_number_loop :
    Nat → List Char → JsonBuilder → (Except JsonError (List Char)) × JsonBuilder
  | 0, _, s => (.error (.ParseError "out of fuel"), s)
  | fuel + 1, num, s =>
    let s := s.next
    match s.token with
    | some d =>
      if '0' ≤ d ∧ d ≤ '9' then parse_number_loop fuel (num ++ [d]) s
      else if d = ',' then (.ok num, s)
      else (.error (.ParseError (unexpected_char_msg s)), s)
    | none =>
      if s.eof_allowed then (.ok num, s)
      else (.error (.ParseError "Unexpected eof."), s)

/-- `JsonBuilder::parse_number`. -/
def parse_number (s : JsonBuilder) : (Except JsonError Json) × JsonBuilder :=
  match s.token with
  | none => (.error (.ParseError "Unexpected eof."), s)
  | some d =>
    match parse_number_loop (s.iter.length + 1) [d] s with
    | (.ok num, s) => (numFinish num, s)
    | (.error e, s) => (.error e, s)

/-- Rust `HashMap::insert`: replace the value of an existing key, append a
fresh key. -/
def insertKV : List (String × Json) → String → Json → List (String × Json)
  | [], k, v => [(k, v)]
  | (k0, v0) :: rest, k, v =>
    if k0 = k then (k, v) :: rest
    else (k0, v0) :: insertKV rest k v

/-- Lookup in the association-list model of the Rust `HashMap`. -/
def lookupKV : List (String × Json) → String → Option Json
  | [], _ => none
  | (k0, v0) :: rest, k => if k0 = k then some v0 else lookupKV rest k

/-- `JsonBuilder::parse_object_key`. -/
def parse_object_key (s : JsonBuilder) : (Except JsonError String) × JsonBuilder :=
  match parse_string_raw s with
  | (.error e, s) => (.error e, s)
  | (.ok key, s) =>
    let s := s.next
    if s.token ≠ some ':' then (.error (.ParseError (expected_colon_msg s)), s)
    else (.ok (String.mk key), s)

mutual

/-- `JsonBuilder::parse`: skip whitespace, then dispatch on the token. -/
def parse : Nat → JsonBuilder → (Except JsonError Json) × JsonBuilder
  | 0, s => (.error (.ParseError "out of fuel"), s)
  | fuel + 1, s =>
    let s := parse_whitespaceT s
    match s.token with
    | some 'n' => parse_ident ['u', 'l', 'l'] .Null s
    | some 't' => parse_ident ['r', 'u', 'e'] (.Boolean true) s
    | some 'f' => parse_ident ['a', 'l', 's', 'e'] (.Boolean false) s
    | some '"' => parse_string s
    | some '[' => parse_list fuel s
    | some '{' => parse_object fuel s
    | some c =>
      if '0' ≤ c ∧ c ≤ '9' then parse_number s
      else (.error (.ParseError (unexpected_char_msg s)), s)
    | none => (.error .NotImplemented, s)

/-- `JsonBuilder::parse_list`: clear `eof_allowed`, then run the loop. -/
def parse_list : Nat → JsonBuilder → (Except JsonError Json) × JsonBuilder
  | 0, s => (.error (.ParseError "out of fuel"), s)
  | fuel + 1, s => parse_list_loop fuel [] { s with eof_allowed := false }

/-- The `loop` of `JsonBuilder::parse_list`, fueled; `list` is the element
accumulator. -/
def parse_list_loop : Nat → List Json → JsonBuilder → (Except JsonError Json) × JsonBuilder
  | 0, _, s => (.error (.ParseError "out of fuel"), s)
  | fuel + 1, list, s =>
    let s := s.next
    match s.token with
    | some ']' => (.ok (.Array list), s)
    | some ',' => parse_list_loop fuel list s
    | some _ =>
      match parse fuel s with
      | (.ok v, s) => parse_list_loop fuel (list ++ [v]) s
      | (.error e, s) => (.error e, s)
    | none => (.error (.ParseError (unexpected_char_msg2 s)), s)

/-- `JsonBuilder::parse_object`: clear `eof_allowed`, then run the loop. -/
def parse_object : Nat → JsonBuilder → (Except JsonError Json) × JsonBuilder
  | 0, s => (.error (.ParseError "out of fuel"), s)
  | fuel + 1, s => parse_object_loop fuel [] { s with eof_allowed := false }

/-- The `loop` of `JsonBuilder::parse_object`, fueled; `map` is the
accumulated mapping. -/
def parse_object_loop :
    Nat → List (String × Json) → JsonBuilder → (Except JsonError Json) × JsonBuilder
  | 0, _, s => (.error (.ParseError "out of fuel"), s)
  | fuel + 1, map, s =>
    let s := s.next
    let s := parse_whitespaceT s
    match s.token with
    | some '}' => (.ok (.Object map), s)
    | some '"' =>
      match parse_object_key_value fuel s with
      | (.ok (key, value), s) => parse_object_loop fuel (insertKV map key value) s
      | (.error e, s) => (.error e, s)
    | some ',' => parse_object_loop fuel map s
    | some _ => (.error (.ParseError (unexpected_char_msg2 s)), s)
    | none => (.error (.ParseError "Unexpected eof."), s)

/-- `JsonBuilder::parse_object_key_value`. -/
def parse_object_key_value :
    Nat → JsonBuilder → (Except JsonError (String × Json)) × JsonBuilder
  | 0, s => (.error (.ParseError "out of fuel"), s)
  | fuel + 1, s =>
    match parse_object_key s with
    | (.error e, s) => (.error e, s)
    | (.ok key, s) =>
      let s := s.next
      match parse fuel s with
      | (.ok value, s) => (.ok (key, value), s)
      | (.error e, s) => (.error e, s)

end

/-- `JsonBuilder::build`: pull the first character, then parse. -/
def build (fuel : Nat) (s : JsonBuilder) : (Except JsonError Json) × JsonBuilder :=
  parse fuel s.next

/-- Fuel that always lets the mutual recursion run the source program to
completion: every cycle through the mutual functions consumes at least one
input character and spends at most four units of fuel. -/
def jsonFuel (l : List Char) : Nat := 4 * l.length + 16

end SimpleJson

/-- `Json::from_str`. -/
def SimpleJson.Json.from_str (input : Str) : Except SimpleJson.JsonError SimpleJson.Json :=
  (SimpleJson.build (SimpleJson.jsonFuel input.data) (SimpleJson.JsonBuilder.new input.data)).1

namespace SimpleJson

/-! ## Basic facts about the cursor and the whitespace skipper -/

theorem next_of_cons (s : JsonBuilder) (c : Char) (rest : List Char) (h : s.iter = c :: rest) :
    s.next.token = some c ∧ s.next.iter = rest ∧ s.next.eof_allowed = s.eof_allowed := by
  simp only [JsonBuilder.next, h]
  split <;> simp

theorem next_of_nil (s : JsonBuilder) (h : s.iter = []) :
    s.next = { s with token := none, column := s.column + 1 } := by
  simp [JsonBuilder.next, h]

theorem parse_whitespace_skip (fuel : Nat) (s : JsonBuilder)
    (h : ¬(s.token = some ' ' ∨ s.token = some '\n')) :
    parse_whitespace fuel s = s := by
  cases fuel <;> simp only [parse_whitespace] <;> rw [if_neg h]

theorem parse_whitespaceT_skip (s : JsonBuilder)
    (h : ¬(s.token = some ' ' ∨ s.token = some '\n')) :
    parse_whitespaceT s = s :=
  parse_whitespace_skip _ s h

theorem parse_whitespace_exhaust :
    ∀ (l : List Char) (s : JsonBuilder), s.iter = l →
      (∀ c ∈ l, c = ' ' ∨ c = '\n') →
      (s.token = some ' ' ∨ s.token = some '\n') →
      (parse_whitespace (l.length + 1) s).token = none := by
  intro l
  induction l with
  | nil =>
    intro s hi hall ht
    simp only [List.length_nil, parse_whitespace]
    rw [if_pos ht, next_of_nil s hi]
  | cons c rest ih =>
    intro s hi hall ht
    have hnext := next_of_cons s c rest hi
    have hcw : c = ' ' ∨ c = '\n' := hall c (by simp)
    have hstep : parse_whitespace (rest.length + 1 + 1) s = parse_whitespace (rest.length + 1) s.next := by
      simp only [parse_whitespace]
      rw [if_pos ht]
    rw [List.length_cons, hstep]
    refine ih s.next hnext.2.1 (fun x hx => hall x (by simp [hx])) ?_
    rcases hcw with h | h
    · left; rw [hnext.1, h]
    · right; rw [hnext.1, h]

theorem parse_dispatch_none (fuel : Nat) (s : JsonBuilder)
    (h : (parse_whitespaceT s).token = none) :
    parse (fuel + 1) s = (.error .NotImplemented, parse_whitespaceT s) := by
  simp only [parse]
  rw [h]

theorem parse_ident_step (c : Char) (cs : List Char) (res : Json) (s : JsonBuilder)
    (h : s.next.token = some c) :
    parse_ident (c :: cs) res s = parse_ident cs res s.next := by
  simp [parse_ident, h]

theorem parse_null_run (fuel : Nat) (s : JsonBuilder) (rest : List Char)
    (ht : s.token = some 'n') (hi : s.iter = 'u' :: 'l' :: 'l' :: rest) :
    (parse (fuel + 1) s).1 = .ok .Null := by
  have hws : parse_whitespaceT s = s := parse_whitespaceT_skip s (by rw [ht]; simp)
  simp only [parse, hws, ht]
  have h1 := next_of_cons s 'u' ('l' :: 'l' :: rest) hi
  rw [parse_ident_step 'u' _ _ s h1.1]
  have h2 := next_of_cons s.next 'l' ('l' :: rest) h1.2.1
  rw [parse_ident_step 'l' _ _ _ h2.1]
  have h3 := next_of_cons s.next.next 'l' rest h2.2.1
  rw [parse_ident_step 'l' _ _ _ h3.1]
  simp [parse_ident]

theorem parse_emptylist_run (fuel : Nat) (s : JsonBuilder) (rest : List Char)
    (ht : s.token = some '[') (hi : s.iter = ']' :: rest) :
    (parse (fuel + 3) s).1 = .ok (.Array []) := by
  have hws : parse_whitespaceT s = s := parse_whitespaceT_skip s (by rw [ht]; simp)
  show (parse (fuel + 2 + 1) s).1 = _
  simp only [parse, hws, ht]
  show (parse_list (fuel + 1 + 1) s).1 = _
  simp only [parse_list]
  have h1 := next_of_cons ({ s with eof_allowed := false }) ']' rest (by simpa using hi)
  simp only [parse_list_loop, h1.1]

/-! ## The number-parser loop -/

theorem parse_number_loop_step (fuel : Nat) (num : List Char) (s : JsonBuilder) (d : Char)
    (h : s.next.token = some d) (hd : '0' ≤ d ∧ d ≤ '9') :
    parse_number_loop (fuel + 1) num s = parse_number_loop fuel (num ++ [d]) s.next := by
  simp only [parse_number_loop, h]
  rw [if_pos hd]

theorem parse_number_loop_comma_term (fuel : Nat) (num : List Char) (s : JsonBuilder)
    (h : s.next.token = some ',') :
    parse_number_loop (fuel + 1) num s = (.ok num, s.next) := by
  simp only [parse_number_loop, h]
  rw [if_neg (by decide)]
  simp

theorem parse_number_loop_bad_term (fuel : Nat) (num : List Char) (s : JsonBuilder) (c : Char)
    (h : s.next.token = some c) (hc : ¬('0' ≤ c ∧ c ≤ '9')) (hcc : c ≠ ',') :
    parse_number_loop (fuel + 1) num s =
      (.error (.ParseError (unexpected_char_msg s.next)), s.next) := by
  simp only [parse_number_loop, h]
  rw [if_neg hc, if_neg hcc]

theorem parse_number_loop_eof_term (fuel : Nat) (num : List Char) (s : JsonBuilder)
    (h : s.next.token = none) :
    parse_number_loop (fuel + 1) num s =
      if s.next.eof_allowed then (.ok num, s.next)
      else (.error (.ParseError "Unexpected eof."), s.next) := by
  simp only [parse_number_loop, h]

theorem parse_number_loop_digits (ds : List Char) :
    ∀ (num : List Char) (s : JsonBuilder) (rest : List Char),
      s.iter = ds ++ rest →
      (∀ x ∈ ds, '0' ≤ x ∧ x ≤ '9') →
      ∃ s', (∀ fuel2 : Nat,
          parse_number_loop (ds.length + (fuel2 + 1)) num s =
            parse_number_loop (fuel2 + 1) (num ++ ds) s')
        ∧ s'.iter = rest ∧ s'.eof_allowed = s.eof_allowed := by
  induction ds with
  | nil =>
    intro num s rest hi hds
    exact ⟨s, fun fuel2 => by simp, by simpa using hi, rfl⟩
  | cons d ds ih =>
    intro num s rest hi hds
    have hn := next_of_cons s d (ds ++ rest) (by simpa using hi)
    obtain ⟨s', hrun, hiter, heof⟩ := ih (num ++ [d]) s.next rest hn.2.1
      (fun x hx => hds x (by simp [hx]))
    refine ⟨s', fun fuel2 => ?_, hiter, heof.trans hn.2.2⟩
    have harith : (d :: ds).length + (fuel2 + 1) = (ds.length + (fuel2 + 1)) + 1 := by
      simp [List.length_cons]; omega
    rw [harith, parse_number_loop_step _ num s d hn.1 (hds d (by simp)), hrun fuel2]
    simp

/-- Outcome of `parse_number` when the digit run is terminated by a comma. -/
theorem parse_number_comma (d : Char) (ds rest : List Char) (s : JsonBuilder)
    (ht : s.token = some d)
    (hds : ∀ x ∈ ds, '0' ≤ x ∧ x ≤ '9')
    (hi : s.iter = ds ++ ',' :: rest) :
    ∃ s', parse_number s = (numFinish (d :: ds), s')
      ∧ s'.token = some ',' ∧ s'.iter = rest ∧ s'.eof_allowed = s.eof_allowed := by
  obtain ⟨s', hrun, hiter, heof⟩ := parse_number_loop_digits ds [d] s (',' :: rest) hi hds
  have hn := next_of_cons s' ',' rest hiter
  have harith : s.iter.length + 1 = ds.length + ((rest.length + 1) + 1) := by
    rw [hi]; simp [List.length_append]; omega
  have hloop : parse_number_loop (s.iter.length + 1) [d] s = (.ok (d :: ds), s'.next) := by
    rw [harith, hrun (rest.length + 1), parse_number_loop_comma_term _ _ s' hn.1]
    simp
  simp only [parse_number, ht, hloop]
  exact ⟨s'.next, rfl, hn.1, hn.2.1, hn.2.2.trans heof⟩

/-- Outcome of `parse_number` when the digit run is terminated by any other
character. -/
theorem parse_number_badchar (d c : Char) (ds rest : List Char) (s : JsonBuilder)
    (ht : s.token = some d)
    (hds : ∀ x ∈ ds, '0' ≤ x ∧ x ≤ '9')
    (hc : ¬('0' ≤ c ∧ c ≤ '9')) (hcc : c ≠ ',')
    (hi : s.iter = ds ++ c :: rest) :
    ∃ s', parse_number s = (.error (.ParseError (unexpected_char_msg s')), s')
      ∧ s'.token = some c := by
  obtain ⟨s', hrun, hiter, heof⟩ := parse_number_loop_digits ds [d] s (c :: rest) hi hds
  have hn := next_of_cons s' c rest hiter
  have harith : s.iter.length + 1 = ds.length + ((rest.length + 1) + 1) := by
    rw [hi]; simp [List.length_append]; omega
  have hloop : parse_number_loop (s.iter.length + 1) [d] s =
      (.error (.ParseError (unexpected_char_msg s'.next)), s'.next) := by
    rw [harith, hrun (rest.length + 1), parse_number_loop_bad_term _ _ s' c hn.1 hc hcc]
  simp only [parse_number, ht, hloop]
  exact ⟨s'.next, rfl, hn.1⟩

/-- Outcome of `parse_number` when the digit run reaches end-of-input. -/
theorem parse_number_eof (d : Char) (ds : List Char) (s : JsonBuilder)
    (ht : s.token = some d)
    (hds : ∀ x ∈ ds, '0' ≤ x ∧ x ≤ '9')
    (hi : s.iter = ds) :
    ∃ s', parse_number s =
      (if s.eof_allowed then numFinish (d :: ds)
       else .error (.ParseError "Unexpected eof."), s')
      ∧ s'.token = none := by
  obtain ⟨s', hrun, hiter, heof⟩ := parse_number_loop_digits ds [d] s [] (by simpa using hi) hds
  have hn : s'.next = { s' with token := none, column := s'.column + 1 } := next_of_nil s' hiter
  have hntok : s'.next.token = none := by rw [hn]
  have hneof : s'.next.eof_allowed = s.eof_allowed := by rw [hn]; simpa using heof
  have harith : s.iter.length + 1 = ds.length + (0 + 1) := by rw [hi]
  have hloop : parse_number_loop (s.iter.length + 1) [d] s =
      if s.eof_allowed then (.ok (d :: ds), s'.next)
      else (.error (.ParseError "Unexpected eof."), s'.next) := by
    rw [harith, hrun 0, parse_number_loop_eof_term _ _ s' hntok]
    rw [hneof]
    simp
  refine ⟨s'.next, ?_, hntok⟩
  by_cases he : s.eof_allowed
  · simp [parse_number, ht, hloop, he]
  · simp [parse_number, ht, hloop, he]

/-- `num.parse::<usize>()` fails on a digit string whose value exceeds
`usize::MAX`, and `parse_number` then reports the digit text. -/
theorem numFinish_overflow (num : List Char) (h : USIZE_MAX < digitsToNat num) :
    numFinish num = .error (.ParseError ("Couldn\x27t parse number: " ++ String.mk num)) := by
  have : parseUsize num = none := by
    rw [parseUsize, if_neg]
    intro hcon
    omega
  rw [numFinish, this]

/-! ## The string-parser loop -/

theorem string_loop_close (fuel : Nat) (acc : List Char) (s : JsonBuilder)
    (h : s.next.token = some '"') :
    parse_string_raw_loop (fuel + 1) acc false s = (.ok acc, s.next) := by
  simp [parse_string_raw_loop, h]

theorem string_loop_esc_enter (fuel : Nat) (acc : List Char) (s : JsonBuilder)
    (h : s.next.token = some '\\') :
    parse_string_raw_loop (fuel + 1) acc false s =
      parse_string_raw_loop fuel acc true s.next := by
  simp [parse_string_raw_loop, h]

theorem string_loop_plain (fuel : Nat) (acc : List Char) (s : JsonBuilder) (c : Char)
    (h : s.next.token = some c) (h1 : c ≠ '"') (h2 : c ≠ '\\') :
    parse_string_raw_loop (fuel + 1) acc false s =
      parse_string_raw_loop fuel (acc ++ [c]) false s.next := by
  simp only [parse_string_raw_loop, h]
  split <;> simp_all

theorem string_loop_esc_quote (fuel : Nat) (acc : List Char) (s : JsonBuilder)
    (h : s.next.token = some '"') :
    parse_string_raw_loop (fuel + 1) acc true s =
      parse_string_raw_loop fuel (acc ++ ['"']) false s.next := by
  simp [parse_string_raw_loop, h]

theorem string_loop_esc_back (fuel : Nat) (acc : List Char) (s : JsonBuilder)
    (h : s.next.token = some '\\') :
    parse_string_raw_loop (fuel + 1) acc true s =
      parse_string_raw_loop fuel (acc ++ ['\\']) false s.next := by
  simp [parse_string_raw_loop, h]

theorem string_loop_esc_bad (fuel : Nat) (acc : List Char) (s : JsonBuilder) (c : Char)
    (h : s.next.token = some c) (h1 : c ≠ '"') (h2 : c ≠ '\\') :
    parse_string_raw_loop (fuel + 1) acc true s =
      (.error (.ParseError "escape error."), s.next) := by
  simp only [parse_string_raw_loop, h]
  split <;> simp_all

theorem string_loop_eof (fuel : Nat) (acc : List Char) (escape : Bool) (s : JsonBuilder)
    (h : s.next.token = none) :
    parse_string_raw_loop (fuel + 1) acc escape s =
      (.error (.ParseError "Unexpected eof."), s.next) := by
  cases escape <;> simp [parse_string_raw_loop, h]

/-- The source string-body loop computes exactly the string grammar the
spec describes. -/
theorem string_refine (n : Nat) :
    ∀ (l : List Char), l.length ≤ n →
      ∀ (acc : List Char) (s : JsonBuilder) (fuel : Nat),
        s.iter = l → l.length + 1 ≤ fuel →
        (parse_string_raw_loop fuel acc false s).1 =
          Except.map Prod.fst (stringSpec l acc) := by
  induction n with
  | zero =>
    intro l hl acc s fuel hi hf
    have hnil : l = [] := List.length_eq_zero.mp (Nat.le_zero.mp hl)
    subst hnil
    obtain ⟨f, rfl⟩ : ∃ f, fuel = f + 1 := ⟨fuel - 1, by omega⟩
    have hn : s.next.token = none := by rw [next_of_nil s hi]
    rw [string_loop_eof f acc false s hn]
    simp [stringSpec, Except.map]
  | succ n ih =>
    intro l hl acc s fuel hi hf
    cases l with
    | nil =>
      obtain ⟨f, rfl⟩ : ∃ f, fuel = f + 1 := ⟨fuel - 1, by omega⟩
      have hn : s.next.token = none := by rw [next_of_nil s hi]
      rw [string_loop_eof f acc false s hn]
      simp [stringSpec, Except.map]
    | cons c rest =>
      obtain ⟨f, rfl⟩ : ∃ f, fuel = f + 1 := ⟨fuel - 1, by omega⟩
      have hn := next_of_cons s c rest hi
      by_cases hq : c = '"'
      · subst hq
        rw [string_loop_close f acc s hn.1, stringSpec.eq_def]
        simp [Except.map]
      · by_cases hb : c = '\\'
        · subst hb
          rw [string_loop_esc_enter f acc s hn.1]
          cases rest with
          | nil =>
            obtain ⟨f2, rfl⟩ : ∃ f2, f = f2 + 1 := ⟨f - 1, by simp at hf; omega⟩
            have hn2 : s.next.next.token = none := by rw [next_of_nil s.next hn.2.1]
            rw [string_loop_eof f2 acc true s.next hn2, stringSpec.eq_def]
            simp [Except.map]
          | cons e rest2 =>
            have hn2 := next_of_cons s.next e rest2 hn.2.1
            obtain ⟨f2, rfl⟩ : ∃ f2, f = f2 + 1 := ⟨f - 1, by simp at hf; omega⟩
            have hlen : rest2.length ≤ n := by simp at hl; omega
            by_cases he : e = '"'
            · subst he
              rw [string_loop_esc_quote f2 acc s.next hn2.1]
              rw [ih rest2 hlen (acc ++ ['"']) s.next.next f2 hn2.2.1 (by simp at hf; omega)]
              conv_rhs => rw [stringSpec.eq_def]
              simp
            · by_cases he2 : e = '\\'
              · subst he2
                rw [string_loop_esc_back f2 acc s.next hn2.1]
                rw [ih rest2 hlen (acc ++ ['\\']) s.next.next f2 hn2.2.1 (by simp at hf; omega)]
                conv_rhs => rw [stringSpec.eq_def]
                simp
              · rw [string_loop_esc_bad f2 acc s.next e hn2.1 he he2, stringSpec.eq_def]
                simp [Except.map, he, he2]
        · rw [string_loop_plain f acc s c hn.1 hq hb]
          have hlen : rest.length ≤ n := by simp at hl; omega
          rw [ih rest hlen (acc ++ [c]) s.next f hn.2.1 (by simp at hf; omega)]
          conv_rhs => rw [stringSpec.eq_def]
          simp [hq, hb]

/-! ## The literal matcher -/

theorem parse_ident_cases (ident : List Char) (res : Json) :
    ∀ s : JsonBuilder, (parse_ident ident res s).1 = .ok res ∨
      (parse_ident ident res s).1 = .error (.ParseError "woot") := by
  induction ident with
  | nil => intro s; left; rfl
  | cons c cs ih =>
    intro s
    by_cases h : s.next.token = some c
    · rw [parse_ident_step c cs res s h]
      exact ih s.next
    · right
      simp [parse_ident, h]

theorem parse_ident_mismatch (c : Char) (cs : List Char) (res : Json) (s : JsonBuilder)
    (h : s.next.token ≠ some c) :
    (parse_ident (c :: cs) res s).1 = .error (.ParseError "woot") := by
  simp [parse_ident, h]

/-! ## Preservation of the eof flag -/

theorem next_eof (s : JsonBuilder) : s.next.eof_allowed = s.eof_allowed := by
  cases h : s.iter with
  | nil => rw [next_of_nil s h]
  | cons c rest => exact (next_of_cons s c rest h).2.2

theorem parse_whitespace_eof : ∀ (fuel : Nat) (s : JsonBuilder),
    (parse_whitespace fuel s).eof_allowed = s.eof_allowed := by
  intro fuel
  induction fuel with
  | zero => intro s; rfl
  | succ n ih =>
    intro s
    by_cases h : s.token = some ' ' ∨ s.token = some '\n'
    · simp only [parse_whitespace]
      rw [if_pos h, ih s.next, next_eof]
    · rw [parse_whitespace_skip _ s h]

theorem parse_whitespaceT_eof (s : JsonBuilder) :
    (parse_whitespaceT s).eof_allowed = s.eof_allowed :=
  parse_whitespace_eof _ s

theorem parse_ident_pres : ∀ (ident : List Char) (res : Json) (s : JsonBuilder),
    ((parse_ident ident res s).2).eof_allowed = s.eof_allowed := by
  intro ident
  induction ident with
  | nil => intro res s; rfl
  | cons c cs ih =>
    intro res s
    by_cases h : s.next.token = some c
    · rw [parse_ident_step c cs res s h, ih]
      exact next_eof s
    · simp [parse_ident, h, next_eof]

theorem parse_string_raw_loop_pres :
    ∀ (fuel : Nat) (acc : List Char) (escape : Bool) (s : JsonBuilder),
      ((parse_string_raw_loop fuel acc escape s).2).eof_allowed = s.eof_allowed := by
  intro fuel
  induction fuel with
  | zero => intro acc escape s; rfl
  | succ n ih =>
    intro acc escape s
    cases h : s.next.token with
    | none =>
      rw [string_loop_eof n acc escape s h]
      exact next_eof s
    | some c =>
      cases escape with
      | true =>
        by_cases h1 : c = '"'
        · subst h1
          rw [string_loop_esc_quote n acc s h, ih]
          exact next_eof s
        · by_cases h2 : c = '\\'
          · subst h2
            rw [string_loop_esc_back n acc s h, ih]
            exact next_eof s
          · rw [string_loop_esc_bad n acc s c h h1 h2]
            exact next_eof s
      | false =>
        by_cases h1 : c = '"'
        · subst h1
          rw [string_loop_close n acc s h]
          exact next_eof s
        · by_cases h2 : c = '\\'
          · subst h2
            rw [string_loop_esc_enter n acc s h, ih]
            exact next_eof s
          · rw [string_loop_plain n acc s c h h1 h2, ih]
            exact next_eof s

theorem parse_string_pres (s : JsonBuilder) :
    ((parse_string s).2).eof_allowed = s.eof_allowed := by
  have hl := parse_string_raw_loop_pres (s.iter.length + 1) [] false s
  rcases hp : parse_string_raw_loop (s.iter.length + 1) [] false s with ⟨r, s2⟩
  rw [hp] at hl
  cases r with
  | ok str =>
    simp only [parse_string, parse_string_raw, hp]
    exact hl
  | error e =>
    simp only [parse_string, parse_string_raw, hp]
    exact hl

theorem parse_number_loop_pres : ∀ (fuel : Nat) (num : List Char) (s : JsonBuilder),
    ((parse_number_loop fuel num s).2).eof_allowed = s.eof_allowed := by
  intro fuel
  induction fuel with
  | zero => intro num s; rfl
  | succ n ih =>
    intro num s
    cases h : s.next.token with
    | none =>
      rw [parse_number_loop_eof_term n num s h]
      split
      · exact next_eof s
      · exact next_eof s
    | some d =>
      by_cases hd : '0' ≤ d ∧ d ≤ '9'
      · rw [parse_number_loop_step n num s d h hd, ih]
        exact next_eof s
      · by_cases hc : d = ','
        · subst hc
          rw [parse_number_loop_comma_term n num s h]
          exact next_eof s
        · rw [parse_number_loop_bad_term n num s d h hd hc]
          exact next_eof s

theorem parse_number_pres (s : JsonBuilder) :
    ((parse_number s).2).eof_allowed = s.eof_allowed := by
  cases ht : s.token with
  | none => simp [parse_number, ht]
  | some d =>
    have hl := parse_number_loop_pres (s.iter.length + 1) [d] s
    rcases hp : parse_number_loop (s.iter.length + 1) [d] s with ⟨r, s2⟩
    rw [hp] at hl
    cases r with
    | ok num =>
      simp only [parse_number, ht, hp]
      exact hl
    | error e =>
      simp only [parse_number, ht, hp]
      exact hl

theorem parse_object_key_pres (s : JsonBuilder) :
    ((parse_object_key s).2).eof_allowed = s.eof_allowed := by
  have hl := parse_string_raw_loop_pres (s.iter.length + 1) [] false s
  rcases hp : parse_string_raw_loop (s.iter.length + 1) [] false s with ⟨r, s2⟩
  rw [hp] at hl
  cases r with
  | error e =>
    simp only [parse_object_key, parse_string_raw, hp]
    exact hl
  | ok key =>
    simp only [parse_object_key, parse_string_raw, hp]
    split
    · rw [next_eof]
      exact hl
    · rw [next_eof]
      exact hl

/-- Once `eof_allowed` has been cleared (by entering any array or object),
no later parsing step of the mutual recursion ever sets it back: the flag
is parser-wide, not scoped per nesting level. -/
theorem eof_false_stable : ∀ fuel : Nat,
    (∀ s : JsonBuilder, s.eof_allowed = false →
      ((parse fuel s).2).eof_allowed = false)
    ∧ (∀ s : JsonBuilder, s.eof_allowed = false →
      ((parse_list fuel s).2).eof_allowed = false)
    ∧ (∀ (l : List Json) (s : JsonBuilder), s.eof_allowed = false →
      ((parse_list_loop fuel l s).2).eof_allowed = false)
    ∧ (∀ s : JsonBuilder, s.eof_allowed = false →
      ((parse_object fuel s).2).eof_allowed = false)
    ∧ (∀ (m : List (String × Json)) (s : JsonBuilder), s.eof_allowed = false →
      ((parse_object_loop fuel m s).2).eof_allowed = false)
    ∧ (∀ s : JsonBuilder, s.eof_allowed = false →
      ((parse_object_key_value fuel s).2).eof_allowed = false) := by
  intro fuel
  induction fuel with
  | zero =>
    exact ⟨fun s h => h, fun s h => h, fun l s h => h, fun s h => h,
      fun m s h => h, fun s h => h⟩
  | succ n ih =>
    obtain ⟨ihp, ihl, ihll, iho, ihol, ihkv⟩ := ih
    refine ⟨?_, ?_, ?_, ?_, ?_, ?_⟩
    · intro s hs
      have hw : (parse_whitespaceT s).eof_allowed = false := by
        rw [parse_whitespaceT_eof]; exact hs
      cases htok : (parse_whitespaceT s).token with
      | none =>
        simp only [parse, htok]
        exact hw
      | some c =>
        simp only [parse, htok]
        split
        · rw [parse_ident_pres]; exact hw
        · rw [parse_ident_pres]; exact hw
        · rw [parse_ident_pres]; exact hw
        · rw [parse_string_pres]; exact hw
        · exact ihl _ hw
        · exact iho _ hw
        · split
          · rw [parse_number_pres]; exact hw
          · exact hw
        · exact hw
    · intro s hs
      simp only [parse_list]
      exact ihll [] _ rfl
    · intro l s hs
      have hnx : s.next.eof_allowed = false := by rw [next_eof]; exact hs
      cases htok : s.next.token with
      | none =>
        simp only [parse_list_loop, htok]
        exact hnx
      | some c =>
        simp only [parse_list_loop, htok]
        split
        · exact hnx
        · exact ihll l _ hnx
        · have hp2 : ((parse n s.next).2).eof_allowed = false := ihp _ hnx
          rcases hp : parse n s.next with ⟨r, s2⟩
          rw [hp] at hp2
          cases r with
          | ok v => exact ihll _ _ hp2
          | error e => exact hp2
        · exact hnx
    · intro s hs
      simp only [parse_object]
      exact ihol [] _ rfl
    · intro m s hs
      have h1 : (parse_whitespaceT s.next).eof_allowed = false := by
        rw [parse_whitespaceT_eof, next_eof]; exact hs
      cases htok : (parse_whitespaceT s.next).token with
      | none =>
        simp only [parse_object_loop, htok]
        exact h1
      | some c =>
        simp only [parse_object_loop, htok]
        split
        · exact h1
        · have hkv : ((parse_object_key_value n (parse_whitespaceT s.next)).2).eof_allowed
              = false := ihkv _ h1
          rcases hp : parse_object_key_value n (parse_whitespaceT s.next) with ⟨r, s2⟩
          rw [hp] at hkv
          cases r with
          | ok kv =>
            obtain ⟨k, v⟩ := kv
            exact ihol _ _ hkv
          | error e => exact hkv
        · exact ihol m _ h1
        · exact h1
        · exact h1
    · intro s hs
      have hk : ((parse_object_key s).2).eof_allowed = false := by
        rw [parse_object_key_pres]; exact hs
      rcases hp : parse_object_key s with ⟨r, s2⟩
      rw [hp] at hk
      cases r with
      | error e =>
        simp only [parse_object_key_value, hp]
        exact hk
      | ok key =>
        have h2 : s2.next.eof_allowed = false := by rw [next_eof]; exact hk
        have hp2 : ((parse n s2.next).2).eof_allowed = false := ihp _ h2
        rcases hq : parse n s2.next with ⟨r2, s3⟩
        rw [hq] at hp2
        cases r2 with
        | ok v =>
          simp only [parse_object_key_value, hp, hq]
          exact hp2
        | error e =>
          simp only [parse_object_key_value, hp, hq]
          exact hp2

/-! ## Claim theorems -/

/-- C1: a digit run followed by any character other than a comma is a
`ParseError` naming the unexpected character (so `[1]` and `1 ` are
rejected); a comma stops accumulation and leaves the lookahead on the comma
for the caller; end-of-input terminates the number successfully exactly when
`eof_allowed` is true, a flag that is cleared on entering any array or
object; otherwise end-of-input inside a number is a `ParseError`. -/
theorem c1_number_terminator :
    (∀ (d c : Char) (ds rest : List Char) (s : JsonBuilder),
        s.token = some d → ('0' ≤ d ∧ d ≤ '9') →
        (∀ x ∈ ds, '0' ≤ x ∧ x ≤ '9') →
        ¬('0' ≤ c ∧ c ≤ '9') → c ≠ ',' →
        s.iter = ds ++ c :: rest →
        (parse_number s).1 =
            .error (.ParseError (unexpected_char_msg (parse_number s).2))
          ∧ (parse_number s).2.token = some c)
    ∧ Json.from_str "[1]" = .error (.ParseError ("unexpected character (" ++
        tokenDebug (some ']') ++ ") at line: 0, column: 3 "))
    ∧ Json.from_str "1 " = .error (.ParseError ("unexpected character (" ++
        tokenDebug (some ' ') ++ ") at line: 0, column: 2 "))
    ∧ (∀ (d : Char) (ds rest : List Char) (s : JsonBuilder),
        s.token = some d → ('0' ≤ d ∧ d ≤ '9') →
        (∀ x ∈ ds, '0' ≤ x ∧ x ≤ '9') →
        s.iter = ds ++ ',' :: rest →
        (parse_number s).1 = numFinish (d :: ds)
          ∧ (parse_number s).2.token = some ','
          ∧ (parse_number s).2.iter = rest)
    ∧ (∀ (d : Char) (ds : List Char) (s : JsonBuilder),
        s.token = some d → ('0' ≤ d ∧ d ≤ '9') →
        (∀ x ∈ ds, '0' ≤ x ∧ x ≤ '9') →
        s.iter = ds →
        (parse_number s).1 =
          if s.eof_allowed then numFinish (d :: ds)
          else .error (.ParseError "Unexpected eof."))
    ∧ (∀ (fuel : Nat) (s : JsonBuilder),
        parse_list (fuel + 1) s = parse_list_loop fuel [] { s with eof_allowed := false }
          ∧ parse_object (fuel + 1) s =
            parse_object_loop fuel [] { s with eof_allowed := false })
    ∧ (∀ (fuel : Nat) (s : JsonBuilder), s.eof_allowed = false →
        ((parse fuel s).2).eof_allowed = false) := by
  refine ⟨?_, rfl, rfl, ?_, ?_, fun fuel s => ⟨rfl, rfl⟩,
    fun fuel s hs => (eof_false_stable fuel).1 s hs⟩
  · intro d c ds rest s ht hd hds hc hcc hi
    obtain ⟨s', hp, htok⟩ := parse_number_badchar d c ds rest s ht hds hc hcc hi
    rw [hp]
    exact ⟨rfl, htok⟩
  · intro d ds rest s ht hd hds hi
    obtain ⟨s', hp, h1, h2, h3⟩ := parse_number_comma d ds rest s ht hds hi
    rw [hp]
    exact ⟨rfl, h1, h2⟩
  · intro d ds s ht hd hds hi
    obtain ⟨s', hp, h1⟩ := parse_number_eof d ds s ht hds hi
    rw [hp]

/-- C1 witness: the three `parse_number` conjuncts at concrete states (a
digit before `]`, a digit before a comma, and a digit at top-level
end-of-input). -/
theorem c1_number_terminator_witness :
    ((parse_number (⟨[']'], some '1', 2, 0, false⟩ : JsonBuilder)).1 =
        .error (.ParseError (unexpected_char_msg
          (parse_number (⟨[']'], some '1', 2, 0, false⟩ : JsonBuilder)).2))
      ∧ (parse_number (⟨[']'], some '1', 2, 0, false⟩ : JsonBuilder)).2.token = some ']')
    ∧ ((parse_number (⟨[','], some '1', 1, 0, true⟩ : JsonBuilder)).1 = numFinish ['1']
      ∧ (parse_number (⟨[','], some '1', 1, 0, true⟩ : JsonBuilder)).2.token = some ','
      ∧ (parse_number (⟨[','], some '1', 1, 0, true⟩ : JsonBuilder)).2.iter = [])
    ∧ (parse_number (⟨[], some '7', 1, 0, true⟩ : JsonBuilder)).1 =
        (if (⟨[], some '7', 1, 0, true⟩ : JsonBuilder).eof_allowed then numFinish ['7']
         else .error (.ParseError "Unexpected eof."))
    ∧ ((parse 1 (⟨[], none, 0, 0, false⟩ : JsonBuilder)).2).eof_allowed = false :=
  ⟨c1_number_terminator.1 '1' ']' [] [] _ rfl (by decide) (by decide) (by decide)
      (by decide) rfl,
   c1_number_terminator.2.2.2.1 '1' [] [] _ rfl (by decide) (by decide) rfl,
   c1_number_terminator.2.2.2.2.1 '7' [] _ rfl (by decide) (by decide) rfl,
   c1_number_terminator.2.2.2.2.2.2 1 _ rfl⟩

/-- C4: the string parser un-escapes exactly backslash-quote and
backslash-backslash and passes every other character through verbatim (it
computes exactly the spec grammar `stringSpec`); a backslash followed by any
other character is an escape error; end-of-input inside a string is an eof
`ParseError` regardless of `eof_allowed`; and the three concrete examples
behave as stated. -/
theorem c4_string_escapes :
    Json.from_str "\"foo\"" = .ok (.String "foo")
    ∧ Json.from_str "\"fo\\\"o\"" = .ok (.String "fo\"o")
    ∧ Json.from_str "\"foo" = .error (.ParseError "Unexpected eof.")
    ∧ (∀ (l acc : List Char) (s : JsonBuilder) (fuel : Nat),
        s.iter = l → l.length + 1 ≤ fuel →
        (parse_string_raw_loop fuel acc false s).1 =
          Except.map Prod.fst (stringSpec l acc))
    ∧ (∀ (s : JsonBuilder) (fuel : Nat) (acc : List Char) (escape : Bool),
        s.iter = [] →
        (parse_string_raw_loop (fuel + 1) acc escape s).1 =
          .error (.ParseError "Unexpected eof.")) := by
  refine ⟨rfl, rfl, rfl, ?_, ?_⟩
  · intro l acc s fuel hi hf
    exact string_refine l.length l le_rfl acc s fuel hi hf
  · intro s fuel acc escape hi
    rw [string_loop_eof fuel acc escape s (by rw [next_of_nil s hi])]

/-- C4 witness: the refinement conjunct and the eof conjunct at concrete
states (the eof one inside escape mode with `eof_allowed` false). -/
theorem c4_string_escapes_witness :
    (parse_string_raw_loop 3 [] false (⟨['a', '"'], some '"', 1, 0, true⟩ : JsonBuilder)).1 =
      Except.map Prod.fst (stringSpec ['a', '"'] [])
    ∧ (parse_string_raw_loop 1 [] true (⟨[], some 'x', 1, 0, false⟩ : JsonBuilder)).1 =
      .error (.ParseError "Unexpected eof.") :=
  ⟨c4_string_escapes.2.2.2.1 ['a', '"'] [] _ 3 rfl (by decide),
   c4_string_escapes.2.2.2.2 _ 0 [] true rfl⟩

/-- C7: the literal and number dispatch cases produce exactly `Null`,
`Boolean(true)`, `Boolean(false)` and `Number(9876)`; the literal matcher
either succeeds with its fixed result or fails with a `ParseError`, and any
first-character mismatch (including end-of-input, where `next` yields no
character) fails with the `ParseError` "woot", as the truncated and
misspelled literals demonstrate. -/
theorem c7_literals_and_number :
    Json.from_str "null" = .ok .Null
    ∧ Json.from_str "true" = .ok (.Boolean true)
    ∧ Json.from_str "false" = .ok (.Boolean false)
    ∧ Json.from_str "9876" = .ok (.Number 9876)
    ∧ (∀ (ident : List Char) (res : Json) (s : JsonBuilder),
        (parse_ident ident res s).1 = .ok res ∨
        (parse_ident ident res s).1 = .error (.ParseError "woot"))
    ∧ (∀ (c : Char) (cs : List Char) (res : Json) (s : JsonBuilder),
        s.next.token ≠ some c →
        (parse_ident (c :: cs) res s).1 = .error (.ParseError "woot"))
    ∧ Json.from_str "nul" = .error (.ParseError "woot")
    ∧ Json.from_str "nulx" = .error (.ParseError "woot") := by
  refine ⟨rfl, rfl, rfl, rfl, ?_, ?_, rfl, rfl⟩
  · intro ident res s
    exact parse_ident_cases ident res s
  · intro c cs res s h
    exact parse_ident_mismatch c cs res s h

/-- C7 witness: the mismatch conjunct at end-of-input and the
ok-or-woot conjunct at a concrete state. -/
theorem c7_literals_and_number_witness :
    (parse_ident ['u'] .Null (⟨[], some 'n', 1, 0, true⟩ : JsonBuilder)).1 =
      .error (.ParseError "woot")
    ∧ ((parse_ident ['x'] .Null (⟨[], some 'n', 1, 0, true⟩ : JsonBuilder)).1 = .ok .Null ∨
       (parse_ident ['x'] .Null (⟨[], some 'n', 1, 0, true⟩ : JsonBuilder)).1 =
         .error (.ParseError "woot")) :=
  ⟨c7_literals_and_number.2.2.2.2.2.1 'u' [] .Null _ (by decide),
   c7_literals_and_number.2.2.2.2.1 ['x'] .Null _⟩

/-- C8: a digit string whose value exceeds the 64-bit `usize` range makes
`parse_number` fail with a `ParseError` naming the offending digit text
(whether terminated by a comma or by top-level end-of-input), rather than
wrapping or truncating; `2^64` itself is such a string. -/
theorem c8_number_overflow :
    (∀ (d : Char) (ds rest : List Char) (s : JsonBuilder),
        s.token = some d → ('0' ≤ d ∧ d ≤ '9') →
        (∀ x ∈ ds, '0' ≤ x ∧ x ≤ '9') →
        s.iter = ds ++ ',' :: rest →
        USIZE_MAX < digitsToNat (d :: ds) →
        (parse_number s).1 =
          .error (.ParseError ("Couldn\x27t parse number: " ++ String.mk (d :: ds))))
    ∧ (∀ (d : Char) (ds : List Char) (s : JsonBuilder),
        s.token = some d → ('0' ≤ d ∧ d ≤ '9') →
        (∀ x ∈ ds, '0' ≤ x ∧ x ≤ '9') →
        s.iter = ds → s.eof_allowed = true →
        USIZE_MAX < digitsToNat (d :: ds) →
        (parse_number s).1 =
          .error (.ParseError ("Couldn\x27t parse number: " ++ String.mk (d :: ds))))
    ∧ Json.from_str "18446744073709551616" =
        .error (.ParseError ("Couldn\x27t parse number: " ++
          String.mk "18446744073709551616".data)) := by
  refine ⟨?_, ?_, rfl⟩
  · intro d ds rest s ht hd hds hi hover
    obtain ⟨s', hp, h1, h2, h3⟩ := parse_number_comma d ds rest s ht hds hi
    rw [hp]
    exact numFinish_overflow (d :: ds) hover
  · intro d ds s ht hd hds hi heof hover
    obtain ⟨s', hp, h1⟩ := parse_number_eof d ds s ht hds hi
    rw [hp]
    simp only [heof, if_true]
    exact numFinish_overflow (d :: ds) hover

/-- C8 witness: the end-of-input overflow conjunct at the concrete digit
string `2^64`. -/
theorem c8_number_overflow_witness :
    (parse_number
      (⟨"8446744073709551616".data, some '1', 1, 0, true⟩ : JsonBuilder)).1 =
      .error (.ParseError ("Couldn\x27t parse number: " ++
        String.mk ('1' :: "8446744073709551616".data))) :=
  c8_number_overflow.2.1 '1' "8446744073709551616".data _ rfl (by decide) (by decide)
    rfl rfl (by decide)

/-- C2: every input that is empty or consists only of spaces and newlines is
rejected; the dispatch-level end-of-input case of `parse` reports the error
kind `NotImplemented`, not a `ParseError`. -/
theorem c2_blank_input_not_implemented (input : String)
    (h : ∀ c ∈ input.data, c = ' ' ∨ c = '\n') :
    Json.from_str input = .error .NotImplemented := by
  obtain ⟨k, hk⟩ : ∃ k, jsonFuel input.data = k + 1 :=
    ⟨4 * input.data.length + 15, by simp [jsonFuel]⟩
  simp only [Json.from_str, build, hk]
  generalize hl : input.data = l at h ⊢
  have htok : (parse_whitespaceT ((JsonBuilder.new l).next)).token = none := by
    cases l with
    | nil =>
      have hn : (JsonBuilder.new []).next =
          { JsonBuilder.new ([] : List Char) with token := none, column := 1 } :=
        next_of_nil _ rfl
      rw [parse_whitespaceT_skip _ (by rw [hn]; simp)]
      rw [hn]
    | cons c rest =>
      have hnext := next_of_cons (JsonBuilder.new (c :: rest)) c rest rfl
      have hcw : c = ' ' ∨ c = '\n' := h c (by simp)
      have hws : (JsonBuilder.new (c :: rest)).next.token = some ' ' ∨
          (JsonBuilder.new (c :: rest)).next.token = some '\n' := by
        rcases hcw with h1 | h1
        · left; rw [hnext.1, h1]
        · right; rw [hnext.1, h1]
      have hfin := parse_whitespace_exhaust rest ((JsonBuilder.new (c :: rest)).next) hnext.2.1
        (fun x hx => h x (by simp [hx])) hws
      rw [parse_whitespaceT, hnext.2.1]
      exact hfin
  rw [parse_dispatch_none k _ htok]

/-- C2 witness: the one-space document is rejected with `NotImplemented`. -/
theorem c2_blank_input_not_implemented_witness :
    Json.from_str " \n " = .error .NotImplemented :=
  c2_blank_input_not_implemented " \n " (by decide)

/-- C3 counterexample: the claim predicts that parsing `[,]` fails with a
`ParseError`, but the code returns the empty array. -/
theorem c3_counterexample : Json.from_str "[,]" = .ok (.Array []) := rfl

/-- C3 amended: the comma arm of `parse_list` skips the comma and continues
its loop without dispatching to `parse`, so there is indeed no duplicate- or
leading-comma detection, but as a consequence `[,]` parses successfully to
the empty array (and stray commas between elements are ignored) rather than
failing in `parse`'s default case. -/
theorem c3_list_comma_skipped :
    Json.from_str "[,]" = .ok (.Array [])
    ∧ (∀ (fuel : Nat) (list : List Json) (s : JsonBuilder),
        s.next.token = some ',' →
        parse_list_loop (fuel + 1) list s = parse_list_loop fuel list s.next)
    ∧ Json.from_str "[,,null,]" = .ok (.Array [.Null]) := by
  refine ⟨rfl, ?_, rfl⟩
  intro fuel list s h
  simp only [parse_list_loop]
  rw [h]
  rfl

/-- C3 amended witness: the comma-skipping conjunct at a concrete state. -/
theorem c3_list_comma_skipped_witness :
    parse_list_loop 1 [] (⟨[','], some '[', 1, 0, false⟩ : JsonBuilder) =
    parse_list_loop 0 [] (⟨[','], some '[', 1, 0, false⟩ : JsonBuilder).next :=
  c3_list_comma_skipped.2.1 0 [] _ rfl

/-- C5: the object parser returns `Object({})` on `{}` and
`Object({"k": Null})` on a one-pair document; every parsed key is inserted
with its value, overwriting any prior value of the same key, so the last
value written for a duplicated key is kept; and lookup after insert always
finds the value just written. -/
theorem c5_object_parsing :
    Json.from_str "{}" = .ok (.Object [])
    ∧ Json.from_str "\x7b\"k\":null\x7d" = .ok (.Object [("k", .Null)])
    ∧ Json.from_str "\x7b\"a\":null,\"a\":true\x7d" = .ok (.Object [("a", .Boolean true)])
    ∧ (∀ (m : List (String × Json)) (k : String) (v : Json),
        lookupKV (insertKV m k v) k = some v) := by
  refine ⟨rfl, rfl, rfl, ?_⟩
  intro m k v
  induction m with
  | nil => simp [insertKV, lookupKV]
  | cons p rest ih =>
    obtain ⟨k0, v0⟩ := p
    by_cases h : k0 = k
    · simp [insertKV, lookupKV, h]
    · simp [insertKV, lookupKV, h, ih]

/-- C6: the array parser produces the empty array, singleton and two-element
arrays in element order, and nesting composes. -/
theorem c6_array_parsing :
    Json.from_str "[]" = .ok (.Array [])
    ∧ Json.from_str "[null]" = .ok (.Array [.Null])
    ∧ Json.from_str "[null, false]" = .ok (.Array [.Null, .Boolean false])
    ∧ Json.from_str "[[null, false], [null, true]]" =
        .ok (.Array [.Array [.Null, .Boolean false], .Array [.Null, .Boolean true]]) :=
  ⟨rfl, rfl, rfl, rfl⟩

/-- C9 counterexample: the claim concludes that the first character of the
first line is reported at column 0, but the code increments `column` as the
character is consumed, so the very first character is reported at column 1. -/
theorem c9_counterexample :
    Json.from_str "x" = .error (.ParseError ("unexpected character (" ++
      tokenDebug (some 'x') ++ ") at line: 0, column: 1 ")) := rfl

/-- C9 amended: `line` and `column` start at 0 and are updated on every
`next`: a newline increments `line` and resets `column` to 0, any other
pulled character increments `column` by 1; consequently the first character
of the first line is reported at column 1 (not 0), because `column` is
incremented as the character is consumed. -/
theorem c9_position_counters :
    (∀ l : List Char, (JsonBuilder.new l).line = 0 ∧ (JsonBuilder.new l).column = 0)
    ∧ (∀ (s : JsonBuilder) (rest : List Char), s.iter = '\n' :: rest →
        s.next = { s with iter := rest, token := some '\n', line := s.line + 1, column := 0 })
    ∧ (∀ (s : JsonBuilder) (c : Char) (rest : List Char), s.iter = c :: rest → c ≠ '\n' →
        s.next = { s with iter := rest, token := some c, column := s.column + 1 })
    ∧ Json.from_str "x" = .error (.ParseError ("unexpected character (" ++
        tokenDebug (some 'x') ++ ") at line: 0, column: 1 ")) := by
  refine ⟨fun l => ⟨rfl, rfl⟩, ?_, ?_, rfl⟩
  · intro s rest h
    simp [JsonBuilder.next, h]
  · intro s c rest h hc
    simp [JsonBuilder.next, h, hc]

/-- C9 amended witness: both `next` conjuncts at concrete states. -/
theorem c9_position_counters_witness :
    ((⟨['\n', 'a'], none, 5, 2, true⟩ : JsonBuilder).next = ⟨['a'], some '\n', 0, 3, true⟩)
    ∧ ((⟨['b', 'c'], none, 5, 2, true⟩ : JsonBuilder).next = ⟨['c'], some 'b', 6, 2, true⟩) :=
  ⟨c9_position_counters.2.1 _ ['a'] rfl, c9_position_counters.2.2.1 _ 'b' ['c'] rfl (by decide)⟩

/-- C10: the parser does not require the input to be exhausted after the
root value: `from_str` returns whatever `parse` returns with no trailing
check, and trailing characters after a root that never peeks past itself
are ignored, for arbitrary trailing text. -/
theorem c10_trailing_input_ignored :
    Json.from_str "null###" = .ok .Null
    ∧ Json.from_str "[]]" = .ok (.Array [])
    ∧ (∀ extra : List Char,
        Json.from_str (String.mk ('n' :: 'u' :: 'l' :: 'l' :: extra)) = .ok .Null)
    ∧ (∀ extra : List Char,
        Json.from_str (String.mk ('[' :: ']' :: extra)) = .ok (.Array []))
    ∧ (∀ input : String,
        Json.from_str input = (parse (jsonFuel input.data) (JsonBuilder.new input.data).next).1) := by
  refine ⟨rfl, rfl, ?_, ?_, fun input => rfl⟩
  · intro extra
    show (parse (jsonFuel ('n' :: 'u' :: 'l' :: 'l' :: extra))
      (JsonBuilder.new ('n' :: 'u' :: 'l' :: 'l' :: extra)).next).1 = .ok .Null
    obtain ⟨k, hk⟩ : ∃ k, jsonFuel ('n' :: 'u' :: 'l' :: 'l' :: extra) = k + 1 :=
      ⟨4 * ('n' :: 'u' :: 'l' :: 'l' :: extra).length + 15, by simp [jsonFuel]⟩
    rw [hk]
    have hn := next_of_cons (JsonBuilder.new ('n' :: 'u' :: 'l' :: 'l' :: extra)) 'n'
      ('u' :: 'l' :: 'l' :: extra) rfl
    exact parse_null_run k _ extra hn.1 hn.2.1
  · intro extra
    show (parse (jsonFuel ('[' :: ']' :: extra))
      (JsonBuilder.new ('[' :: ']' :: extra)).next).1 = .ok (.Array [])
    obtain ⟨k, hk⟩ : ∃ k, jsonFuel ('[' :: ']' :: extra) = k + 3 :=
      ⟨4 * ('[' :: ']' :: extra).length + 13, by simp [jsonFuel]⟩
    rw [hk]
    have hn := next_of_cons (JsonBuilder.new ('[' :: ']' :: extra)) '[' (']' :: extra) rfl
    exact parse_emptylist_run k _ extra hn.1 hn.2.1

end SimpleJson
